import Mathlib

/-!
Verification development for the applicant-screening repository.

The definitions below are a shallow embedding of the text-parsing and
normalization logic in `src/server.ts`:
* character/string utilities modelling the JavaScript string operations used
  (`split`, `trim`, `includes`, `startsWith`, `replace`, `toLowerCase`);
* the regex matchers of `getProfileWithExa` (education line pattern,
  experience title patterns, date-range pattern), implemented as explicit
  backtracking matchers specialised to those patterns;
* the experience-block loop of `getProfileWithExa`, including the
  first-current-company designation with JavaScript truthiness semantics;
* `parseDates`, `isHighSchool`, `getEducationRank` and the education
  filter/sort of the `/screen` handler, plus the structured experience
  mapping loop.

Machine integers do not occur (all numbers are small years/months parsed from
four decimal digits), so `Nat` is used throughout.
-/

/-! ## Character classes (as used by the JavaScript regexes on the inputs involved) -/

/-- JS `\s` restricted to the whitespace characters that occur in the inputs. -/
def isWsC (c : Char) : Bool := c.isWhitespace

/-- JS `[A-Z]`. -/
def isUpperAZ (c : Char) : Bool := 'A' ≤ c && c ≤ 'Z'

/-- JS `[a-z]`. -/
def isLowerAZ (c : Char) : Bool := 'a' ≤ c && c ≤ 'z'

/-- JS `\d`. -/
def isDigit09 (c : Char) : Bool := '0' ≤ c && c ≤ '9'

/-- JS `.` (does not match a newline). -/
def dotC (c : Char) : Bool := c != '\n'

/-! ## List/string utilities modelling JS string methods -/

/-- Length of the maximal prefix of `cs` whose characters satisfy `p`. -/
def countWhile (p : Char → Bool) : List Char → Nat
  | [] => 0
  | c :: cs => if p c then countWhile p cs + 1 else 0

/-- Decimal value of a digit list (used for JS `parseInt` on `\d{4}`). -/
def digitsVal (l : List Char) : Nat :=
  l.foldl (fun n c => n * 10 + (c.toNat - 48)) 0

/-- JS `String.prototype.trim` on a character list. -/
def trimL (cs : List Char) : List Char :=
  ((cs.dropWhile isWsC).reverse.dropWhile isWsC).reverse

/-- Occurrence test for a pattern inside a character list (JS `includes`). -/
def listOccurs (pat : List Char) : List Char → Bool
  | [] => pat.isEmpty
  | c :: rest => pat.isPrefixOf (c :: rest) || listOccurs pat rest

/-- JS `String.prototype.includes`. -/
def strIncludes (s pat : String) : Bool := listOccurs pat.toList s.toList

/-- JS `String.prototype.startsWith`. -/
def strStartsWith (s pat : String) : Bool := pat.toList.isPrefixOf s.toList

/-- JS `String.prototype.toLowerCase` (ASCII, as used by the keyword checks). -/
def lowerStr (s : String) : String := String.mk (s.toList.map Char.toLower)

/-- Split a character list at `'\n'` (JS `split('\n')`), keeping empty pieces. -/
def splitLinesGo (acc : List Char) : List Char → List (List Char)
  | [] => [acc.reverse]
  | '\n' :: rest => acc.reverse :: splitLinesGo [] rest
  | c :: rest => splitLinesGo (c :: acc) rest

/-! ## The date/field normalizer (`parseDates`, server.ts lines 1129-1135) -/

/-- A loosely-typed date value `{year?, month?, day?}`. -/
structure DateObj where
  year : Option Nat
  month : Option Nat
  day : Option Nat
deriving Repr, DecidableEq

/-- A loosely-typed time period, exposing both the `{startDate, endDate}` and
the `{start, end}` key namings (`end` is rendered `end_`). -/
structure TimePeriod where
  startDate : Option DateObj
  endDate : Option DateObj
  start : Option DateObj
  end_ : Option DateObj
deriving Repr, DecidableEq

/-- `entry.timePeriod ?? entry.dateRange ?? {}`. -/
def resolvedTimePeriod (timePeriod dateRange : Option TimePeriod) : TimePeriod :=
  timePeriod.getD (dateRange.getD ⟨none, none, none, none⟩)

structure ParsedDates where
  startYear : Option Nat
  endYear : Option Nat
  isCurrent : Bool
deriving Repr, DecidableEq

/-- server.ts `parseDates`:
`startYear = tp.startDate?.year ?? tp.start?.year ?? null`,
`endYear = tp.endDate?.year ?? tp.end?.year ?? null`,
`isCurrent = !tp.endDate && !tp.end` (an object value, even `{}`, is truthy). -/
def parseDates (timePeriod dateRange : Option TimePeriod) : ParsedDates :=
  let tp := resolvedTimePeriod timePeriod dateRange
  { startYear := (tp.startDate.bind DateObj.year).orElse (fun _ => tp.start.bind DateObj.year)
    endYear := (tp.endDate.bind DateObj.year).orElse (fun _ => tp.end_.bind DateObj.year)
    isCurrent := tp.endDate.isNone && tp.end_.isNone }

/-! ## Backtracking helpers for the regex matchers

Every quantifier in the server's regexes ranges over a single-character
class, so a match corresponds to choosing a repeat count for each
quantifier.  `firstCount` tries the counts in the engine's backtracking
order: a lazy quantifier tries small counts first, a greedy one large
counts first. -/

/-- Try counts `lo..hi` in backtracking order (`lazyq = true`: ascending,
otherwise descending), returning the first success of the continuation. -/
def firstCount (lazyq : Bool) (lo hi : Nat) (f : Nat → Option α) : Option α :=
  let ns := List.range' lo (hi + 1 - lo)
  (if lazyq then ns else ns.reverse).findSome? f

/-- Unanchored leftmost search: try the matcher at every start position,
earliest first (JS `String.prototype.match` for a pattern without `^`). -/
def searchFrom (f : List Char → Option α) : List Char → Option α
  | [] => f []
  | c :: rest =>
    match f (c :: rest) with
    | some x => some x
    | none => searchFrom f rest

/-! ## The education line pattern `/###\s*(.+?)\s+at\s+(.+)/` (server.ts 859) -/

/-- The trailing `\\s+(.+)` of the education pattern, after the literal
`at`: greedy whitespace, then a nonempty greedy run of `.` as the second
capture group. -/
def eduGroup2 (g1 t4 : List Char) : Option (List Char × List Char) :=
  firstCount false 1 (countWhile isWsC t4) (fun w2 =>
    let t5 := t4.drop w2
    let g2 := t5.take (countWhile dotC t5)
    if g2.isEmpty then none else some (g1, g2))

/-- The `\\s+at\\s+(.+)` part of the education pattern, after the first
capture group. -/
def eduSep (g1 t2 : List Char) : Option (List Char × List Char) :=
  firstCount false 1 (countWhile isWsC t2) (fun w =>
    let t3 := t2.drop w
    if ['a', 't'].isPrefixOf t3 then eduGroup2 g1 (t3.drop 2) else none)

/-- The `(.+?)\\s+at\\s+(.+)` part of the education pattern: the lazy first
capture group, then the separator and second group. -/
def eduBody (t1 : List Char) : Option (List Char × List Char) :=
  firstCount true 1 (countWhile dotC t1) (fun n => eduSep (t1.take n) (t1.drop n))

/-- Match the education pattern anchored at the current position:
`###`, greedy `\\s*`, then the body. -/
def eduAt (cs : List Char) : Option (List Char × List Char) :=
  if ['#', '#', '#'].isPrefixOf cs then
    let t := cs.drop 3
    firstCount false 0 (countWhile isWsC t) (fun m => eduBody (t.drop m))
  else none

/-- JS `line.match(/###\s*(.+?)\s+at\s+(.+)/)`: leftmost match, returning the
two capture groups. -/
def matchEduLine (line : String) : Option (List Char × List Char) :=
  searchFrom eduAt line.toList

/-! ## The experience title patterns (server.ts 890 and 901) -/

/-- JS `firstLine.match(/(.+?)\s+at\s+\[(.+?)\]/)`.  Since `.` matches every
character of a newline-free line, a match anywhere implies a match starting at
position 0, so the matcher is anchored there. -/
def titleBracketMatch (cs : List Char) : Option (List Char × List Char) :=
  firstCount true 1 (countWhile dotC cs) (fun n =>
    let g1 := cs.take n
    let t2 := cs.drop n
    firstCount false 1 (countWhile isWsC t2) (fun w =>
      let t3 := t2.drop w
      if ['a', 't'].isPrefixOf t3 then
        let t4 := t3.drop 2
        firstCount false 1 (countWhile isWsC t4) (fun w2 =>
          match t4.drop w2 with
          | '[' :: u =>
            firstCount true 1 (countWhile dotC u) (fun j =>
              match u.drop j with
              | ']' :: _ => some (g1, u.take j)
              | _ => none)
          | _ => none)
      else none))

/-- JS `firstLine.match(/(.+?)\s+at\s+([^(\n]+)/)`, anchored at 0 as above. -/
def titleSimpleMatch (cs : List Char) : Option (List Char × List Char) :=
  firstCount true 1 (countWhile dotC cs) (fun n =>
    let g1 := cs.take n
    let t2 := cs.drop n
    firstCount false 1 (countWhile isWsC t2) (fun w =>
      let t3 := t2.drop w
      if ['a', 't'].isPrefixOf t3 then
        let t4 := t3.drop 2
        firstCount false 1 (countWhile isWsC t4) (fun w2 =>
          let t5 := t4.drop w2
          let g2 := t5.take (countWhile (fun c => c != '(' && c != '\n') t5)
          if g2.isEmpty then none else some (g1, g2))
      else none))

/-! ## The date-range pattern (server.ts 910 and 912)

`/([A-Z][a-z]+)\s+(\d{4})\s*-\s*(Present|([A-Z][a-z]+)\s+(\d{4}))/`.
Here every quantifier is deterministic: each maximal run is followed by a
character that the next pattern element cannot accept after a shorter run,
so no count backtracking is needed, only the leftmost position scan. -/

structure DateMatch where
  startMonth : String
  startYear : Nat
  /-- `none` models the `Present` alternative (no matched end month/year). -/
  endM : Option (String × Nat)
deriving Repr, DecidableEq

/-- Match the date-range pattern anchored at the current position. -/
def dateAt (cs : List Char) : Option DateMatch :=
  match cs with
  | [] => none
  | c :: rest =>
    if isUpperAZ c then
      let lr := countWhile isLowerAZ rest
      if lr = 0 then none else
      let t1 := rest.drop lr
      let w1 := countWhile isWsC t1
      if w1 = 0 then none else
      let t2 := t1.drop w1
      let ds := t2.take 4
      if ds.length = 4 && ds.all isDigit09 then
        let m1 := String.mk (c :: rest.take lr)
        let y1 := digitsVal ds
        let t3 := t2.drop 4
        match t3.drop (countWhile isWsC t3) with
        | '-' :: t5 =>
          let t6 := t5.drop (countWhile isWsC t5)
          if "Present".toList.isPrefixOf t6 then
            some ⟨m1, y1, none⟩
          else
            match t6 with
            | [] => none
            | c2 :: r2 =>
              if isUpperAZ c2 then
                let lr2 := countWhile isLowerAZ r2
                if lr2 = 0 then none else
                let t7 := r2.drop lr2
                let w2 := countWhile isWsC t7
                if w2 = 0 then none else
                let ds2 := (t7.drop w2).take 4
                if ds2.length = 4 && ds2.all isDigit09 then
                  some ⟨m1, y1, some (String.mk (c2 :: r2.take lr2), digitsVal ds2)⟩
                else none
              else none
        | _ => none
      else none
    else none

/-- JS `l.match(/([A-Z][a-z]+)\s+(\d{4})\s*-\s*(Present|([A-Z][a-z]+)\s+(\d{4}))/)`.
The `lines.find` test at server.ts 910 uses the same pattern without the
capture groups, so `(matchDateLine l).isSome` is exactly that test. -/
def matchDateLine (line : String) : Option DateMatch :=
  searchFrom dateAt line.toList

/-! ## Section splitting (server.ts 844, 881) -/

/-- Scanner for `text.split(/^## /m)` after position 0: a `"## "` right after a
newline ends the current segment (the newline stays in it, the `"## "` is
dropped).  No match can start inside a partially matched separator, so the
fall-through case safely consumes one character. -/
def secGo (acc : List Char) : List Char → List (List Char)
  | [] => [acc.reverse]
  | '\n' :: '#' :: '#' :: ' ' :: rest => (acc.reverse ++ ['\n']) :: secGo [] rest
  | c :: rest => secGo (c :: acc) rest

/-- JS `text.split(/^## /m)`: a match at position 0 contributes a leading
empty segment. -/
def splitSections (text : String) : List String :=
  let cs := text.toList
  match cs with
  | '#' :: '#' :: ' ' :: rest => "" :: (secGo [] rest).map String.mk
  | _ => (secGo [] cs).map String.mk

/-- Scanner for `experienceSection.split(/\n###\s+/)`.  The first argument is
`true` while consuming the greedy `\s+` tail of a separator just matched
(whitespace includes `'\n'`, so after that tail no separator can restart at
the next character).  In the non-matching case (`c` not whitespace, hence not
`'\n'`) no separator can start inside `"\n###" ++ [c]`, so all five characters
go to the current segment. -/
def expGo : Bool → List Char → List Char → List (List Char)
  | _, acc, [] => [acc.reverse]
  | true, acc, c :: rest =>
    if isWsC c then expGo true acc rest else expGo false (c :: acc) rest
  | false, acc, '\n' :: '#' :: '#' :: '#' :: c :: rest =>
    if isWsC c then acc.reverse :: expGo true [] rest
    else expGo false (c :: '#' :: '#' :: '#' :: '\n' :: acc) rest
  | false, acc, c :: rest => expGo false (c :: acc) rest

/-- server.ts 881: split the experience section on `/\n###\s+/` and keep the
blocks with `b.trim()` truthy and not starting with `"Experience"`. -/
def splitExpBlocks (sec : String) : List String :=
  ((expGo false [] sec.toList).map String.mk).filter
    (fun b => !(trimL b.toList).isEmpty && !strStartsWith b "Experience")

/-! ## Link-markup stripping (server.ts 864 and 898) -/

/-- Fueled scanner for `school.replace(/\[([^\]]+)\]<web_link>/g, "$1")`:
each occurrence of bracketed text immediately followed by the literal
`<web_link>` is replaced by the bracketed text.  `fuel` at least the length
of the input makes the scan total. -/
def stripWebLink (fuel : Nat) (cs : List Char) : List Char :=
  match fuel, cs with
  | 0, cs => cs
  | _, [] => []
  | fuel + 1, '[' :: rest =>
    let r := countWhile (fun c => c != ']') rest
    if 1 ≤ r && decide (rest.drop r ≠ []) &&
        "]<web_link>".toList.isPrefixOf (rest.drop r) then
      rest.take r ++ stripWebLink fuel (rest.drop (r + 11))
    else '[' :: stripWebLink fuel rest
  | fuel + 1, c :: rest => c :: stripWebLink fuel rest

/-- Fueled scanner for `company.replace(/<web_link>/g, "")`. -/
def stripWebLinkTag (fuel : Nat) (cs : List Char) : List Char :=
  match fuel, cs with
  | 0, cs => cs
  | _, [] => []
  | fuel + 1, '<' :: rest =>
    if "web_link>".toList.isPrefixOf rest then stripWebLinkTag fuel (rest.drop 9)
    else '<' :: stripWebLinkTag fuel rest
  | fuel + 1, c :: rest => c :: stripWebLinkTag fuel rest

/-! ## Output record shapes (server.ts interfaces) -/

/-- A parsed education entry (`{school, degree, field, start, end}`);
nullable fields are `Option`s, `end` is rendered `end_`. -/
structure Education where
  school : Option String
  degree : Option String
  field : Option String
  start : Option Nat
  end_ : Option Nat
deriving Repr, DecidableEq

/-- A parsed experience entry (`{company, title, start, end, current}`);
`end` is rendered `endYear`. -/
structure Experience where
  company : Option String
  title : Option String
  start : Option Nat
  endYear : Option Nat
  current : Bool
deriving Repr, DecidableEq

/-! ## The free-text experience block loop (server.ts 883-945) -/

/-- server.ts 884: `block.split('\n').filter(l => l.trim())` (a string is
truthy iff nonempty). -/
def blockLines (block : String) : List String :=
  ((splitLinesGo [] block.toList).filter (fun l => !(trimL l).isEmpty)).map String.mk

/-- server.ts 890-905: try the bracketed title pattern, then the plain one;
on the bracketed match the company also has every `<web_link>` removed
(after `trim`). -/
def titleOf (firstLine : String) : Option (String × String) :=
  let cs := firstLine.toList
  match titleBracketMatch cs with
  | some (t, c) =>
    let company := trimL c
    some (String.mk (trimL t), String.mk (stripWebLinkTag company.length company))
  | none =>
    match titleSimpleMatch cs with
    | some (t, c) => some (String.mk (trimL t), String.mk (trimL c))
    | none => none

/-- server.ts 910: `lines.find(l => datePattern.test(l))` followed by
re-matching the found line (the test succeeds exactly when the match does). -/
def findDateMatch (lines : List String) : Option DateMatch :=
  match lines.find? (fun l => (matchDateLine l).isSome) with
  | some l => matchDateLine l
  | none => none

/-- JS `!endYear` for `endYear : number | null` (`null` and `0` are falsy). -/
def jsFalsyNum : Option Nat → Bool
  | none => true
  | some n => n == 0

/-- JS `!currentCompany` for `currentCompany : string | null`
(`null` and `""` are falsy). -/
def jsFalsyStr : Option String → Bool
  | none => true
  | some s => s == ""

/-- The data extracted from one experience block before it is pushed. -/
structure BlockResult where
  company : String
  title : String
  startMonth : String
  startYear : Nat
  endYear : Option Nat
  current : Bool
deriving Repr, DecidableEq

/-- Build the block's result (server.ts 914-934): `endYear` is `null` for
`Present`, otherwise the matched end year; the entry is current when the
first line had the `"(Current)"` marker, or the end was `Present`, or
`!endYear` holds. -/
def mkBlockResult (first : String) (tc : String × String) (dm : DateMatch) : BlockResult :=
  let endYear : Option Nat := match dm.endM with
    | none => none
    | some p => some p.2
  { company := tc.2
    title := tc.1
    startMonth := dm.startMonth
    startYear := dm.startYear
    endYear := endYear
    current := strIncludes first "(Current)" || dm.endM.isNone || jsFalsyNum endYear }

/-- One iteration of the block loop on its filtered lines: skip the block
unless it has at least two nonempty lines, a matching title line and a
matching date line. -/
def parseBlockLines : List String → Option BlockResult
  | [] => none
  | first :: rest =>
    if (first :: rest).length < 2 then none
    else
      match titleOf first with
      | none => none
      | some tc =>
        match findDateMatch (first :: rest) with
        | none => none
        | some dm => some (mkBlockResult first tc dm)

/-- The entry a single experience block contributes, if any. -/
def parseBlock (block : String) : Option BlockResult :=
  parseBlockLines (blockLines block)

/-- The `Experience` record pushed for a block (server.ts 928-934). -/
def entryOf (r : BlockResult) : Experience :=
  { company := some r.company, title := some r.title, start := some r.startYear
    endYear := r.endYear, current := r.current }

/-- `{ month: monthMap[startMonth] || undefined, year: startYear }`. -/
def monthMap (m : String) : Option Nat :=
  if m = "Jan" then some 1 else if m = "Feb" then some 2
  else if m = "Mar" then some 3 else if m = "Apr" then some 4
  else if m = "May" then some 5 else if m = "Jun" then some 6
  else if m = "Jul" then some 7 else if m = "Aug" then some 8
  else if m = "Sep" then some 9 else if m = "Oct" then some 10
  else if m = "Nov" then some 11 else if m = "Dec" then some 12
  else none

structure PositionStart where
  month : Option Nat
  year : Nat
deriving Repr, DecidableEq

/-- The mutable state of the Exa experience loop. -/
structure ExaState where
  experiences : List Experience
  currentCompany : Option String
  currentPositionStart : Option PositionStart
deriving Repr, DecidableEq

/-- One loop iteration (server.ts 883-945): push the entry, and designate the
current company when the entry is current and `currentCompany` is still falsy
(JS truthiness: `null` or `""`). -/
def stepBlock (st : ExaState) (block : String) : ExaState :=
  match parseBlock block with
  | none => st
  | some r =>
    let st1 := { st with experiences := st.experiences ++ [entryOf r] }
    if r.current && jsFalsyStr st.currentCompany then
      { st1 with
        currentCompany := some r.company
        currentPositionStart := some ⟨monthMap r.startMonth, r.startYear⟩ }
    else st1

/-- server.ts 879: the section whose text starts with `"Experience"`, or `""`. -/
def experienceSectionOf (text : String) : String :=
  ((splitSections text).find? (fun s => strStartsWith s "Experience")).getD ""

/-- The whole free-text experience pass of `getProfileWithExa`. -/
def parseExperienceSection (text : String) : ExaState :=
  (splitExpBlocks (experienceSectionOf text)).foldl stepBlock ⟨[], none, none⟩

/-- The block results in block order (used to state loop invariants). -/
def exaBlockResults (text : String) : List BlockResult :=
  (splitExpBlocks (experienceSectionOf text)).filterMap parseBlock

/-! ## The free-text education parse (server.ts 847-870) -/

/-- server.ts 848: the section whose text starts with `"Education"`, or `""`. -/
def educationSectionOf (text : String) : String :=
  ((splitSections text).find? (fun s => strStartsWith s "Education")).getD ""

/-- server.ts 853: `educationSection.split('\n').filter(l => l.trim().startsWith('###'))`. -/
def eduLinesOf (sec : String) : List String :=
  ((splitLinesGo [] sec.toList).filter
    (fun l => strStartsWith (String.mk (trimL l)) "###")).map String.mk

/-- The body of the education-line loop (server.ts 856-870): match the line,
trim the captures, strip `[...]<web_link>` markup from the school; a
non-matching line yields nothing (it is skipped). -/
def eduEntryOfLine (line : String) : Option Education :=
  match matchEduLine line with
  | some (g1, g2) =>
    let school := trimL g2
    some { school := some (String.mk (stripWebLink school.length school))
           degree := some (String.mk (trimL g1))
           field := none, start := none, end_ := none }
  | none => none

/-- server.ts 856-870: the education entries collected from the Education
section's entry lines. -/
def parseEducationText (text : String) : List Education :=
  (eduLinesOf (educationSectionOf text)).filterMap eduEntryOfLine

/-! ## Education keyword heuristics

Both file regions hold a copy of `isHighSchool`/`getEducationRank`; the copy
inside `getProfileWithExa` (server.ts 948-996) additionally checks the
`"noc "` and `"batch "` degree keywords, so the two copies are embedded
separately. -/

/-- The school-name keyword check shared by both copies (server.ts 952-963
and 1182-1193). -/
def hsSchoolKeywords (schoolName : String) : Bool :=
  strIncludes schoolName "high school" ||
  strIncludes schoolName "secondary school" ||
  strIncludes schoolName "preparatory" ||
  strIncludes schoolName "prep school" ||
  strIncludes schoolName "uwc " ||
  strIncludes schoolName "uwc south" ||
  strIncludes schoolName "uwc east" ||
  strIncludes schoolName "international school" ||
  strIncludes schoolName "sixth form" ||
  strIncludes schoolName "college preparatory"

/-- The degree-name keyword check of the `/screen` copy (server.ts 1196-1210). -/
def hsDegreeKeywords (degreeName : String) : Bool :=
  strIncludes degreeName "high school" ||
  strIncludes degreeName "ib diploma" ||
  strIncludes degreeName "international baccalaureate" ||
  strIncludes degreeName "a-level" ||
  strIncludes degreeName "a level" ||
  strIncludes degreeName "gcse" ||
  strIncludes degreeName "o-level" ||
  strIncludes degreeName "cbse" ||
  strIncludes degreeName "icse" ||
  strIncludes degreeName "grade 12" ||
  strIncludes degreeName "secondary education" ||
  degreeName == "—" ||
  degreeName == ""

/-- `isHighSchool` of the `/screen` handler (server.ts 1177-1213). -/
def isHighSchool (edu : Education) : Bool :=
  let schoolName := lowerStr (edu.school.getD "")
  let degreeName := lowerStr (edu.degree.getD "")
  hsSchoolKeywords schoolName || hsDegreeKeywords degreeName

/-- `isHighSchool` of `getProfileWithExa` (server.ts 948-984): the `/screen`
keywords plus `"noc "` and `"batch "`. -/
def isHighSchoolExa (edu : Education) : Bool :=
  let schoolName := lowerStr (edu.school.getD "")
  let degreeName := lowerStr (edu.degree.getD "")
  hsSchoolKeywords schoolName ||
  (strIncludes degreeName "high school" ||
   strIncludes degreeName "ib diploma" ||
   strIncludes degreeName "international baccalaureate" ||
   strIncludes degreeName "a-level" ||
   strIncludes degreeName "a level" ||
   strIncludes degreeName "gcse" ||
   strIncludes degreeName "o-level" ||
   strIncludes degreeName "cbse" ||
   strIncludes degreeName "icse" ||
   strIncludes degreeName "grade 12" ||
   strIncludes degreeName "secondary education" ||
   strIncludes degreeName "noc " ||
   strIncludes degreeName "batch " ||
   degreeName == "—" ||
   degreeName == "")

/-- `getEducationRank` of the `/screen` handler (server.ts 1216-1227). -/
def getEducationRank (edu : Education) : Nat :=
  let degreeName := lowerStr (edu.degree.getD "")
  if strIncludes degreeName "phd" || strIncludes degreeName "ph.d" ||
      strIncludes degreeName "doctorate" then 5
  else if strIncludes degreeName "master" || strIncludes degreeName "mba" ||
      strIncludes degreeName "ms" || strIncludes degreeName "ma" then 4
  else if strIncludes degreeName "bachelor" || strIncludes degreeName "bs" ||
      strIncludes degreeName "ba" || strIncludes degreeName "b.tech" ||
      strIncludes degreeName "btech" then 3
  else if strIncludes degreeName "associate" || strIncludes degreeName "diploma" then 2
  else if isHighSchool edu then 0
  else 1

/-- `getEducationRank` of `getProfileWithExa` (server.ts 986-996); it calls
the Exa copy of `isHighSchool`. -/
def getEducationRankExa (edu : Education) : Nat :=
  let degreeName := lowerStr (edu.degree.getD "")
  if strIncludes degreeName "phd" || strIncludes degreeName "ph.d" ||
      strIncludes degreeName "doctorate" then 5
  else if strIncludes degreeName "master" || strIncludes degreeName "mba" ||
      strIncludes degreeName "ms" || strIncludes degreeName "ma" then 4
  else if strIncludes degreeName "bachelor" || strIncludes degreeName "bs" ||
      strIncludes degreeName "ba" || strIncludes degreeName "b.tech" ||
      strIncludes degreeName "btech" then 3
  else if strIncludes degreeName "associate" || strIncludes degreeName "diploma" then 2
  else if isHighSchoolExa edu then 0
  else 1

/-! ## Education filter and sort -/

/-- server.ts 1230-1233: keep only non-high-school entries when at least one
exists, otherwise keep everything. -/
def filterEducationList (l : List Education) : List Education :=
  let collegeEducation := l.filter (fun e => !isHighSchool e)
  if collegeEducation.length > 0 then collegeEducation else l

/-- server.ts 1236: `education.sort((a, b) => getEducationRank(b) -
getEducationRank(a))`.  `Array.prototype.sort` is stable and the comparator
is a total preorder, so the result is the unique stable descending order,
modelled by `List.mergeSort`. -/
def sortEducation (l : List Education) : List Education :=
  l.mergeSort (fun a b => decide (getEducationRank b ≤ getEducationRank a))

/-- The Exa copies of the filter and sort (server.ts 998-1000). -/
def exaFilterEducation (l : List Education) : List Education :=
  let collegeEducation := l.filter (fun e => !isHighSchoolExa e)
  if collegeEducation.length > 0 then collegeEducation else l

def exaSortEducation (l : List Education) : List Education :=
  l.mergeSort (fun a b => decide (getEducationRankExa b ≤ getEducationRankExa a))

/-- The education list of the profile returned by `getProfileWithExa`. -/
def exaEducation (text : String) : List Education :=
  exaSortEducation (exaFilterEducation (parseEducationText text))

/-! ## The structured-source experience mapping (server.ts 1244-1264) -/

structure LinkedInMiniCompany where
  universalName : Option String
deriving Repr, DecidableEq

structure LinkedInCompanyRef where
  universalName : Option String
  miniCompany : Option LinkedInMiniCompany
deriving Repr, DecidableEq

structure LinkedInPosition where
  companyName : Option String
  title : Option String
  timePeriod : Option TimePeriod
  dateRange : Option TimePeriod
  company : Option LinkedInCompanyRef
deriving Repr, DecidableEq

/-- The mutable state of the `/screen` experience loop. -/
structure ScreenExpState where
  experiences : List Experience
  currentCompany : Option String
  currentCompanyUniversalName : Option String
  currentPositionStart : Option DateObj
deriving Repr, DecidableEq

/-- The entry pushed for a position (server.ts 1248-1254): `end` is `null`
whenever the entry is current. -/
def screenEntryOf (exp : LinkedInPosition) : Experience :=
  let pd := parseDates exp.timePeriod exp.dateRange
  { company := exp.companyName, title := exp.title, start := pd.startYear
    endYear := if pd.isCurrent then none else pd.endYear, current := pd.isCurrent }

/-- One iteration of the `/screen` experience loop (server.ts 1244-1264). -/
def screenExpStep (st : ScreenExpState) (exp : LinkedInPosition) : ScreenExpState :=
  let pd := parseDates exp.timePeriod exp.dateRange
  let tp := resolvedTimePeriod exp.timePeriod exp.dateRange
  let st1 := { st with experiences := st.experiences ++ [screenEntryOf exp] }
  if pd.isCurrent && jsFalsyStr st.currentCompany then
    { st1 with
      currentCompany := exp.companyName
      currentCompanyUniversalName :=
        (exp.company.bind LinkedInCompanyRef.universalName).orElse
          (fun _ => exp.company.bind (fun c => c.miniCompany.bind LinkedInMiniCompany.universalName))
      currentPositionStart := tp.startDate.orElse (fun _ => tp.start) }
  else st1

/-- The whole `/screen` experience mapping. -/
def screenExperiences (positions : List LinkedInPosition) : ScreenExpState :=
  positions.foldl screenExpStep ⟨[], none, none, none⟩

/-! ## The CLI variant's current-experience pick (screen.ts `main`) -/

/-- The CLI experience record's `timePeriod` (`{startDate?, endDate?}`). -/
structure CliTimePeriod where
  startDate : Option DateObj
  endDate : Option DateObj
deriving Repr, DecidableEq

/-- A CLI experience entry (the fields the current-position pick reads). -/
structure CliExperience where
  companyName : Option String
  title : Option String
  timePeriod : Option CliTimePeriod
deriving Repr, DecidableEq

/-- CLI: `!e.timePeriod?.endDate` (a present `endDate` object is truthy). -/
def cliIsCurrent (e : CliExperience) : Bool :=
  (e.timePeriod.bind CliTimePeriod.endDate).isNone

/-- CLI: `const current = experiences.find((e) => !e.timePeriod?.endDate)`. -/
def cliCurrentExperience (exps : List CliExperience) : Option CliExperience :=
  exps.find? cliIsCurrent

/-! ## Specification of the current-company designation

Both server experience loops guard the designation update with
`isCurrent && !currentCompany` and set the company and position-start fields
together.  `jsDesignate` replays such a loop over the abstract step list
`(current flag, company value, position-start value)`; `designatedFrom`
computes the value the loop ends with: the first flagged step whose company
value is truthy (non-null and nonempty) wins outright, while a flagged step
with a falsy company value holds the designation only until the next flagged
step. -/

/-- Replay of the `if (isCurrent && !currentCompany)` update over a step
list, threading the `(currentCompany, positionStart)` pair. -/
def jsDesignate : List (Bool × Option String × β) → Option String × β → Option String × β
  | [], st => st
  | (b, c, v) :: rest, st =>
    jsDesignate rest (if b && jsFalsyStr st.1 then (c, v) else st)

/-- The designation the loop ends with, if any flagged step exists. -/
def designatedFrom : List (Bool × Option String × β) → Option (Option String × β)
  | [] => none
  | (b, c, v) :: rest =>
    if b then
      if jsFalsyStr c then some ((designatedFrom rest).getD (c, v))
      else some (c, v)
    else designatedFrom rest

/-- The step a free-text block result feeds into the designation update
(server.ts 936-942). -/
def exaStepOf (r : BlockResult) : Bool × Option String × Option PositionStart :=
  (r.current, some r.company, some ⟨monthMap r.startMonth, r.startYear⟩)

def exaSteps (text : String) : List (Bool × Option String × Option PositionStart) :=
  (exaBlockResults text).map exaStepOf

/-- The step a structured position feeds into the designation update
(server.ts 1255-1263). -/
def screenStepOf (p : LinkedInPosition) : Bool × Option String × Option DateObj :=
  ((parseDates p.timePeriod p.dateRange).isCurrent, p.companyName,
   (resolvedTimePeriod p.timePeriod p.dateRange).startDate.orElse
     (fun _ => (resolvedTimePeriod p.timePeriod p.dateRange).start))

def screenSteps (positions : List LinkedInPosition) :
    List (Bool × Option String × Option DateObj) :=
  positions.map screenStepOf

/-! ## Helper lemmas -/

theorem foldl_screenExpStep_experiences (ps : List LinkedInPosition) (st : ScreenExpState) :
    (ps.foldl screenExpStep st).experiences = st.experiences ++ ps.map screenEntryOf := by
  induction ps generalizing st with
  | nil => simp
  | cons p ps ih =>
    have hstep : (screenExpStep st p).experiences = st.experiences ++ [screenEntryOf p] := by
      simp only [screenExpStep]
      split <;> rfl
    simp [List.foldl_cons, ih, hstep]

theorem parseBlockLines_some {ls : List String} {r : BlockResult}
    (h : parseBlockLines ls = some r) :
    ∃ first rest tc dm, ls = first :: rest ∧ ¬ ls.length < 2 ∧
      titleOf first = some tc ∧ findDateMatch ls = some dm ∧
      r = mkBlockResult first tc dm := by
  match ls with
  | [] => simp [parseBlockLines] at h
  | first :: rest =>
    simp only [parseBlockLines] at h
    by_cases hlen : (first :: rest).length < 2
    · rw [if_pos hlen] at h
      exact absurd h (by simp)
    · rw [if_neg hlen] at h
      cases htc : titleOf first with
      | none => rw [htc] at h; simp at h
      | some tc =>
        rw [htc] at h
        cases hdm : findDateMatch (first :: rest) with
        | none => rw [hdm] at h; simp at h
        | some dm =>
          rw [hdm] at h
          simp only [Option.some.injEq] at h
          exact ⟨first, rest, tc, dm, rfl, hlen, htc, rfl, h.symm⟩

theorem foldl_stepBlock_experiences (blocks : List String) (st : ExaState) :
    (blocks.foldl stepBlock st).experiences =
      st.experiences ++ (blocks.filterMap parseBlock).map entryOf := by
  induction blocks generalizing st with
  | nil => simp
  | cons b bs ih =>
    cases hpb : parseBlock b with
    | none => simp [List.foldl_cons, stepBlock, hpb, ih]
    | some r =>
      have hstep : (stepBlock st b).experiences = st.experiences ++ [entryOf r] := by
        simp only [stepBlock, hpb]
        split <;> rfl
      have hcc : ∀ st' : ExaState, (stepBlock st' b).experiences = st'.experiences ++ [entryOf r] := by
        intro st'
        simp only [stepBlock, hpb]
        split <;> rfl
      simp [List.foldl_cons, ih, hcc st, hpb]

theorem jsDesignate_truthy (steps : List (Bool × Option String × β))
    (st : Option String × β) (h : jsFalsyStr st.1 = false) :
    jsDesignate steps st = st := by
  induction steps generalizing st with
  | nil => rfl
  | cons s rest ih =>
    obtain ⟨b, c, v⟩ := s
    simp only [jsDesignate, h, Bool.and_false]
    rw [if_neg (by simp)]
    exact ih st h

theorem jsDesignate_falsy (steps : List (Bool × Option String × β))
    (st : Option String × β) (h : jsFalsyStr st.1 = true) :
    jsDesignate steps st = (designatedFrom steps).getD st := by
  induction steps generalizing st with
  | nil => rfl
  | cons s rest ih =>
    obtain ⟨b, c, v⟩ := s
    simp only [jsDesignate, designatedFrom, h, Bool.and_true]
    cases b with
    | false =>
      rw [if_neg (by simp), if_neg (by simp)]
      exact ih st h
    | true =>
      rw [if_pos rfl, if_pos rfl]
      by_cases hc : jsFalsyStr c = true
      · rw [ih (c, v) hc, if_pos hc]
        simp
      · rw [jsDesignate_truthy rest (c, v) (by simpa using hc), if_neg hc]
        simp

theorem stepBlock_ccps (st : ExaState) (b : String) :
    ((stepBlock st b).currentCompany, (stepBlock st b).currentPositionStart) =
      match parseBlock b with
      | none => (st.currentCompany, st.currentPositionStart)
      | some r =>
        if r.current && jsFalsyStr st.currentCompany
        then (some r.company, some ⟨monthMap r.startMonth, r.startYear⟩)
        else (st.currentCompany, st.currentPositionStart) := by
  cases hpb : parseBlock b with
  | none => simp [stepBlock, hpb]
  | some r =>
    simp only [stepBlock, hpb]
    split <;> rfl

theorem foldl_stepBlock_ccps (blocks : List String) (st : ExaState) :
    ((blocks.foldl stepBlock st).currentCompany,
     (blocks.foldl stepBlock st).currentPositionStart) =
      jsDesignate ((blocks.filterMap parseBlock).map exaStepOf)
        (st.currentCompany, st.currentPositionStart) := by
  induction blocks generalizing st with
  | nil => rfl
  | cons b bs ih =>
    rw [List.foldl_cons, ih]
    cases hpb : parseBlock b with
    | none =>
      rw [stepBlock_ccps st b, hpb]
      simp [List.filterMap_cons, hpb]
    | some r =>
      rw [stepBlock_ccps st b, hpb]
      simp only [List.filterMap_cons, hpb, List.map_cons, jsDesignate, exaStepOf]

theorem screenExpStep_ccps (st : ScreenExpState) (p : LinkedInPosition) :
    ((screenExpStep st p).currentCompany, (screenExpStep st p).currentPositionStart) =
      (if (parseDates p.timePeriod p.dateRange).isCurrent && jsFalsyStr st.currentCompany
       then ((screenStepOf p).2.1, (screenStepOf p).2.2)
       else (st.currentCompany, st.currentPositionStart)) := by
  simp only [screenExpStep, screenStepOf]
  split <;> rfl

theorem foldl_screenExpStep_ccps (positions : List LinkedInPosition) (st : ScreenExpState) :
    ((positions.foldl screenExpStep st).currentCompany,
     (positions.foldl screenExpStep st).currentPositionStart) =
      jsDesignate (positions.map screenStepOf)
        (st.currentCompany, st.currentPositionStart) := by
  induction positions generalizing st with
  | nil => rfl
  | cons p ps ih =>
    rw [List.foldl_cons, ih, screenExpStep_ccps st p]
    simp only [List.map_cons, jsDesignate, screenStepOf]

theorem countWhile_head_false {p : Char → Bool} {c : Char} (cs : List Char) (h : p c = false) :
    countWhile p (c :: cs) = 0 := by
  simp [countWhile, h]

theorem countWhile_all {p : Char → Bool} {l : List Char} (h : ∀ c ∈ l, p c = true) :
    countWhile p l = l.length := by
  induction l with
  | nil => rfl
  | cons c cs ih =>
    simp [countWhile, h c (by simp), ih (fun x hx => h x (by simp [hx]))]

theorem countWhile_append_all {p : Char → Bool} {l1 : List Char} (l2 : List Char)
    (h : ∀ c ∈ l1, p c = true) :
    countWhile p (l1 ++ l2) = l1.length + countWhile p l2 := by
  induction l1 with
  | nil => simp
  | cons c cs ih =>
    simp [countWhile, h c (by simp), ih (fun x hx => h x (by simp [hx]))]
    omega

theorem drop_countWhile (p : Char → Bool) (l : List Char) :
    l.drop (countWhile p l) = l.dropWhile p := by
  induction l with
  | nil => rfl
  | cons c cs ih =>
    by_cases h : p c = true
    · simp [countWhile, List.dropWhile_cons, h, ih]
    · rw [countWhile_head_false cs (by simpa using h)]
      simp [List.dropWhile_cons, h]

theorem dropWhile_all_false {p : Char → Bool} {l : List Char} (h : ∀ c ∈ l, p c = false) :
    l.dropWhile p = l := by
  cases l with
  | nil => rfl
  | cons c cs => simp [List.dropWhile_cons, h c (by simp)]

theorem dropWhile_idem (p : Char → Bool) (l : List Char) :
    (l.dropWhile p).dropWhile p = l.dropWhile p := by
  induction l with
  | nil => rfl
  | cons c cs ih =>
    by_cases h : p c = true
    · simp [List.dropWhile_cons, h, ih]
    · simp [List.dropWhile_cons, h]

theorem trimL_no_ws {d : List Char} (h : ∀ c ∈ d, isWsC c = false) : trimL d = d := by
  unfold trimL
  rw [dropWhile_all_false h,
    dropWhile_all_false (fun c hc => h c (List.mem_reverse.mp hc)), List.reverse_reverse]

theorem trimL_dropWhile (s : List Char) : trimL (s.dropWhile isWsC) = trimL s := by
  unfold trimL
  rw [dropWhile_idem]

theorem firstCount_greedy_top {α} (lo hi : Nat) (f : Nat → Option α) (x : α)
    (hlo : lo ≤ hi) (hx : f hi = some x) : firstCount false lo hi f = some x := by
  show (List.range' lo (hi + 1 - lo)).reverse.findSome? f = some x
  have h1 : hi + 1 - lo = (hi - lo) + 1 := by omega
  rw [h1, List.range'_concat, List.reverse_append]
  have h2 : lo + 1 * (hi - lo) = hi := by omega
  rw [h2]
  simp [hx]

theorem findSome?_range'_lazy {α} (f : Nat → Option α) (x : α) :
    ∀ (len lo N : Nat), lo ≤ N → N < lo + len →
      (∀ k, lo ≤ k → k < N → f k = none) → f N = some x →
      (List.range' lo len).findSome? f = some x := by
  intro len
  induction len with
  | zero =>
    intro lo N h1 h2 _ _
    exact absurd h2 (by omega)
  | succ n ih =>
    intro lo N h1 h2 hnone hx
    rw [List.range'_succ]
    rcases Nat.lt_or_ge lo N with hlt | hge
    · have hflo : f lo = none := hnone lo (Nat.le_refl lo) hlt
      simp only [List.findSome?_cons, hflo]
      exact ih (lo + 1) N hlt (by omega) (fun k hk1 hk2 => hnone k (by omega) hk2) hx
    · have heq : lo = N := Nat.le_antisymm h1 hge
      subst heq
      simp [hx]

theorem firstCount_lazy_min {α} (lo hi N : Nat) (f : Nat → Option α) (x : α)
    (h1 : lo ≤ N) (h2 : N ≤ hi)
    (hnone : ∀ k, lo ≤ k → k < N → f k = none) (hx : f N = some x) :
    firstCount true lo hi f = some x := by
  show (List.range' lo (hi + 1 - lo)).findSome? f = some x
  exact findSome?_range'_lazy f x (hi + 1 - lo) lo N h1 (by omega) hnone hx

theorem firstCount_bot {α} (f : Nat → Option α) : firstCount false 1 0 f = none := rfl

theorem searchFrom_cons_some {α} (f : List Char → Option α) (c : Char) (rest : List Char)
    (x : α) (h : f (c :: rest) = some x) : searchFrom f (c :: rest) = some x := by
  simp [searchFrom, h]

theorem eduGroup2_form (g1 s : List Char) (hsn : ∀ c ∈ s, c ≠ '\n')
    (hsw : ∃ c ∈ s, isWsC c = false) :
    eduGroup2 g1 (' ' :: s) = some (g1, s.dropWhile isWsC) := by
  unfold eduGroup2
  rw [show countWhile isWsC (' ' :: s) = countWhile isWsC s + 1 from rfl]
  apply firstCount_greedy_top 1 (countWhile isWsC s + 1) _ _ (by omega)
  simp only []
  rw [show List.drop (countWhile isWsC s + 1) (' ' :: s) = s.dropWhile isWsC from
    drop_countWhile isWsC s]
  have hdots : countWhile dotC (s.dropWhile isWsC) = (s.dropWhile isWsC).length := by
    apply countWhile_all
    intro c hc
    have hcs : c ∈ s := (List.dropWhile_sublist _).subset hc
    simp [dotC, hsn c hcs]
  rw [hdots, List.take_length]
  have hne : (s.dropWhile isWsC).isEmpty = false := by
    rw [List.isEmpty_eq_false, Ne, List.dropWhile_eq_nil_iff]
    intro hall
    obtain ⟨c, hc, hf⟩ := hsw
    rw [hall c hc] at hf
    exact absurd hf (by simp)
  rw [hne]
  rfl

theorem eduSep_none (g1 t2 : List Char) (h : countWhile isWsC t2 = 0) :
    eduSep g1 t2 = none := by
  unfold eduSep
  rw [h]
  exact firstCount_bot _

theorem eduSep_form (g1 s : List Char) (hsn : ∀ c ∈ s, c ≠ '\n')
    (hsw : ∃ c ∈ s, isWsC c = false) :
    eduSep g1 (' ' :: 'a' :: 't' :: ' ' :: s) = some (g1, s.dropWhile isWsC) := by
  unfold eduSep
  rw [show countWhile isWsC (' ' :: 'a' :: 't' :: ' ' :: s) = 1 from rfl]
  apply firstCount_greedy_top 1 1 _ _ (Nat.le_refl 1)
  simp only []
  show eduGroup2 g1 (' ' :: s) = some (g1, s.dropWhile isWsC)
  exact eduGroup2_form g1 s hsn hsw

theorem eduBody_form (d s : List Char) (hd0 : d ≠ [])
    (hdw : ∀ c ∈ d, isWsC c = false) (hsn : ∀ c ∈ s, c ≠ '\n')
    (hsw : ∃ c ∈ s, isWsC c = false) :
    eduBody (d ++ ' ' :: 'a' :: 't' :: ' ' :: s) = some (d, s.dropWhile isWsC) := by
  have hdot_d : ∀ c ∈ d, dotC c = true := by
    intro c hc
    have hw := hdw c hc
    have hne : c ≠ '\n' := by
      intro heq
      rw [heq] at hw
      exact absurd hw (by decide)
    simp [dotC, hne]
  unfold eduBody
  apply firstCount_lazy_min 1 _ d.length _ _ (List.length_pos.mpr hd0)
  · rw [countWhile_append_all _ hdot_d]
    omega
  · intro k hk1 hk2
    apply eduSep_none
    rw [List.drop_append_of_le_length (Nat.le_of_lt hk2), List.drop_eq_getElem_cons hk2,
      List.cons_append]
    exact countWhile_head_false _ (hdw _ (List.getElem_mem hk2))
  · rw [List.take_left, List.drop_left]
    exact eduSep_form d s hsn hsw

theorem matchEduLine_form (d s : List Char) (hd0 : d ≠ [])
    (hdw : ∀ c ∈ d, isWsC c = false) (hsn : ∀ c ∈ s, c ≠ '\n')
    (hsw : ∃ c ∈ s, isWsC c = false) :
    matchEduLine (String.mk ('#' :: '#' :: '#' :: ' ' :: (d ++ ' ' :: 'a' :: 't' :: ' ' :: s))) =
      some (d, s.dropWhile isWsC) := by
  show searchFrom eduAt ('#' :: '#' :: '#' :: ' ' :: (d ++ ' ' :: 'a' :: 't' :: ' ' :: s)) =
    some (d, s.dropWhile isWsC)
  apply searchFrom_cons_some
  show firstCount false 0 (countWhile isWsC (' ' :: (d ++ ' ' :: 'a' :: 't' :: ' ' :: s))) _ =
    some (d, s.dropWhile isWsC)
  have hm : countWhile isWsC (' ' :: (d ++ ' ' :: 'a' :: 't' :: ' ' :: s)) = 1 := by
    obtain ⟨dc, dtl, rfl⟩ : ∃ dc dtl, d = dc :: dtl := by
      cases d with
      | nil => exact absurd rfl hd0
      | cons dc dtl => exact ⟨dc, dtl, rfl⟩
    show countWhile isWsC (dc :: (dtl ++ ' ' :: 'a' :: 't' :: ' ' :: s)) + 1 = 1
    rw [countWhile_head_false _ (hdw dc (by simp))]
  rw [hm]
  apply firstCount_greedy_top 0 1 _ _ (by omega)
  show eduBody (d ++ ' ' :: 'a' :: 't' :: ' ' :: s) = some (d, s.dropWhile isWsC)
  exact eduBody_form d s hd0 hdw hsn hsw

/-! ## Claim theorems -/

/-- C6: for every time-period value, the date normalizer supports both the
`{startDate, endDate}` and the `{start, end}` key namings with the first
non-absent year winning, returns optional start and end years, and returns
`isCurrent` true if and only if no end value is present under either naming. -/
theorem parseDates_contract (tpo dro : Option TimePeriod) :
    ((parseDates tpo dro).isCurrent = true ↔
      (resolvedTimePeriod tpo dro).endDate = none ∧ (resolvedTimePeriod tpo dro).end_ = none) ∧
    (∀ y, (resolvedTimePeriod tpo dro).startDate.bind DateObj.year = some y →
      (parseDates tpo dro).startYear = some y) ∧
    ((resolvedTimePeriod tpo dro).startDate.bind DateObj.year = none →
      (parseDates tpo dro).startYear = (resolvedTimePeriod tpo dro).start.bind DateObj.year) ∧
    (∀ y, (resolvedTimePeriod tpo dro).endDate.bind DateObj.year = some y →
      (parseDates tpo dro).endYear = some y) ∧
    ((resolvedTimePeriod tpo dro).endDate.bind DateObj.year = none →
      (parseDates tpo dro).endYear = (resolvedTimePeriod tpo dro).end_.bind DateObj.year) := by
  refine ⟨?_, ?_, ?_, ?_, ?_⟩
  · simp [parseDates, Option.isNone_iff_eq_none]
  · intro y hy
    simp [parseDates, hy, Option.orElse]
  · intro hy
    simp [parseDates, hy, Option.orElse]
  · intro y hy
    simp [parseDates, hy, Option.orElse]
  · intro hy
    simp [parseDates, hy, Option.orElse]

/-- Witness for C6: a period using only the `{start}` naming and no end value
yields that start year and `isCurrent = true`; a period using the
`{startDate, endDate}` naming yields the `endDate` year. -/
theorem parseDates_contract_witness :
    (parseDates (some ⟨none, none, some ⟨some 2019, none, none⟩, none⟩) none).startYear =
      some 2019 ∧
    (parseDates (some ⟨none, none, some ⟨some 2019, none, none⟩, none⟩) none).isCurrent = true ∧
    (parseDates (some ⟨some ⟨some 2020, none, none⟩, some ⟨some 2023, none, none⟩, none, none⟩)
      none).endYear = some 2023 := by
  refine ⟨?_, ?_, ?_⟩
  · exact ((parseDates_contract (some ⟨none, none, some ⟨some 2019, none, none⟩, none⟩)
      none).2.2.1 (by decide)).trans (by decide)
  · exact (parseDates_contract (some ⟨none, none, some ⟨some 2019, none, none⟩, none⟩)
      none).1.mpr (by decide)
  · exact (parseDates_contract
      (some ⟨some ⟨some 2020, none, none⟩, some ⟨some 2023, none, none⟩, none, none⟩)
      none).2.2.2.1 2023 (by decide)

/-- C7: if some parsed education entry is not classified high-school, the
filter keeps exactly the non-high-school entries; if every entry is
high-school, the filter keeps all of them. -/
theorem education_filter_partition (l : List Education) :
    ((∃ e, e ∈ l ∧ isHighSchool e = false) →
      filterEducationList l = l.filter (fun e => !isHighSchool e)) ∧
    ((∀ e, e ∈ l → isHighSchool e = true) → filterEducationList l = l) := by
  constructor
  · rintro ⟨e, he, hns⟩
    have hmem : e ∈ l.filter (fun e => !isHighSchool e) := by
      simp [List.mem_filter, he, hns]
    have hlen : 0 < (l.filter (fun e => !isHighSchool e)).length :=
      List.length_pos.mpr (List.ne_nil_of_mem hmem)
    simp [filterEducationList, hlen]
  · intro hall
    have hnil : l.filter (fun e => !isHighSchool e) = [] := by
      rw [List.filter_eq_nil_iff]
      intro a ha
      simp [hall a ha]
    simp [filterEducationList, hnil]

/-- Witness for C7: a high-school entry next to a university entry is
discarded; a lone high-school entry is kept. -/
theorem education_filter_partition_witness :
    filterEducationList
        [⟨some "Lincoln High School", some "—", none, none, none⟩,
         ⟨some "State University", some "BS Computer Science", none, none, none⟩] =
      [⟨some "State University", some "BS Computer Science", none, none, none⟩] ∧
    filterEducationList [⟨some "Lincoln High School", some "—", none, none, none⟩] =
      [⟨some "Lincoln High School", some "—", none, none, none⟩] := by
  constructor
  · exact ((education_filter_partition _).1
      ⟨⟨some "State University", some "BS Computer Science", none, none, none⟩,
        by decide, by decide⟩).trans (by decide)
  · exact (education_filter_partition _).2 (by decide)

/-- C4: for every education line of the form `### <degree> at <school>`
(degree nonempty and whitespace-free, school a newline-free run with some
non-whitespace character), the line matcher captures exactly the degree and
the school text, and the parser builds the entry with the trimmed degree and
the trimmed school with `[text]<web_link>` markup stripped; a line the
pattern does not match contributes no entry (it is skipped, not an error);
in particular `"### MBA at [Stanford University]<web_link>"` yields
`{degree: "MBA", school: "Stanford University"}` while
`"### Stanford University"` is skipped. -/
theorem edu_line_parse_spec :
    (∀ (d s : List Char), d ≠ [] → (∀ c ∈ d, isWsC c = false) →
      (∀ c ∈ s, c ≠ '\n') → (∃ c ∈ s, isWsC c = false) →
      eduEntryOfLine
          (String.mk ('#' :: '#' :: '#' :: ' ' :: (d ++ ' ' :: 'a' :: 't' :: ' ' :: s))) =
        some { school := some (String.mk (stripWebLink (trimL s).length (trimL s)))
               degree := some (String.mk d), field := none, start := none, end_ := none }) ∧
    (∀ (line : String) (g1 g2 : List Char), matchEduLine line = some (g1, g2) →
      eduEntryOfLine line =
        some { school := some (String.mk (stripWebLink (trimL g2).length (trimL g2)))
               degree := some (String.mk (trimL g1)), field := none, start := none, end_ := none }) ∧
    (∀ (ls1 ls2 : List String) (line : String), matchEduLine line = none →
      (ls1 ++ line :: ls2).filterMap eduEntryOfLine = (ls1 ++ ls2).filterMap eduEntryOfLine) ∧
    parseEducationText
        "## Education\n### MBA at [Stanford University]<web_link>\n### Stanford University" =
      [{ school := some "Stanford University", degree := some "MBA",
         field := none, start := none, end_ := none }] := by
  refine ⟨?_, ?_, ?_, by decide⟩
  · intro d s hd0 hdw hsn hsw
    unfold eduEntryOfLine
    rw [matchEduLine_form d s hd0 hdw hsn hsw]
    show some ({ school := some (String.mk (stripWebLink (trimL (s.dropWhile isWsC)).length
                  (trimL (s.dropWhile isWsC))))
                 degree := some (String.mk (trimL d))
                 field := none, start := none, end_ := none } : Education) =
      some ({ school := some (String.mk (stripWebLink (trimL s).length (trimL s)))
              degree := some (String.mk d), field := none, start := none, end_ := none } : Education)
    rw [trimL_dropWhile, trimL_no_ws hdw]
  · intro line g1 g2 h
    unfold eduEntryOfLine
    rw [h]
  · intro ls1 ls2 line h
    simp [List.filterMap_append, eduEntryOfLine, h]

/-- Witness for C4: the constructed line `"### BSc at [MIT]<web_link>"`
parses to degree `"BSc"` and school `"MIT"`. -/
theorem edu_line_parse_spec_witness :
    eduEntryOfLine "### BSc at [MIT]<web_link>" =
      some { school := some "MIT", degree := some "BSc",
             field := none, start := none, end_ := none } := by
  have heq : "### BSc at [MIT]<web_link>" =
      String.mk ('#' :: '#' :: '#' :: ' ' ::
        ("BSc".toList ++ ' ' :: 'a' :: 't' :: ' ' :: "[MIT]<web_link>".toList)) := by
    decide
  rw [heq]
  exact (edu_line_parse_spec.1 "BSc".toList "[MIT]<web_link>".toList
    (by decide) (by decide) (by decide) (by decide)).trans (by decide)

/-- C2: whenever the matched date line of a block ends in `Present` (no
matched end year, `dm.endM = none`), the resulting entry is current with no
end year, regardless of the `"(Current)"` marker; and the marker alone also
forces the current flag (the two signals are OR'd). -/
theorem present_forces_current :
    (∀ (block : String) (e : BlockResult) (dm : DateMatch),
      parseBlock block = some e →
      findDateMatch (blockLines block) = some dm →
      dm.endM = none →
      e.current = true ∧ e.endYear = none) ∧
    (∀ (block : String) (e : BlockResult) (first : String) (rest : List String),
      blockLines block = first :: rest →
      strIncludes first "(Current)" = true →
      parseBlock block = some e →
      e.current = true) := by
  constructor
  · intro block e dm hpb hfd hend
    have hpb' : parseBlockLines (blockLines block) = some e := hpb
    obtain ⟨first, rest, tc, dm', hls, hlen, htc, hfd', hr⟩ := parseBlockLines_some hpb'
    rw [hfd] at hfd'
    have hdm : dm' = dm := by
      injection hfd' with h
      exact h.symm
    subst hdm
    subst hr
    simp [mkBlockResult, hend]
  · intro block e first rest hls hmark hpb
    have hpb' : parseBlockLines (blockLines block) = some e := hpb
    obtain ⟨first', rest', tc, dm, hls', hlen, htc, hfd, hr⟩ := parseBlockLines_some hpb'
    have hfst : first' = first := by
      have := hls'.symm.trans hls
      injection this
    subst hfst
    subst hr
    simp [mkBlockResult, hmark]

/-- Witness for C2: the block `"Engineer at Acme\nJun 2021 - Present"` (which
has no `"(Current)"` marker) produces a current entry with no end year. -/
theorem present_forces_current_witness :
    parseBlock "Engineer at Acme\nJun 2021 - Present" =
      some ⟨"Acme", "Engineer", "Jun", 2021, none, true⟩ ∧
    (⟨"Acme", "Engineer", "Jun", 2021, none, true⟩ : BlockResult).current = true ∧
    (⟨"Acme", "Engineer", "Jun", 2021, none, true⟩ : BlockResult).endYear = none := by
  refine ⟨by decide, ?_⟩
  exact present_forces_current.1 "Engineer at Acme\nJun 2021 - Present"
    ⟨"Acme", "Engineer", "Jun", 2021, none, true⟩ ⟨"Jun", 2021, none⟩
    (by decide) (by decide) rfl

/-- C9: a text blob with no section whose header starts with `"Education"`
(resp. `"Experience"`) yields an empty education (resp. experience) list
rather than an error. -/
theorem missing_section_empty_lists (text : String) :
    ((splitSections text).find? (fun s => strStartsWith s "Education") = none →
      exaEducation text = []) ∧
    ((splitSections text).find? (fun s => strStartsWith s "Experience") = none →
      (parseExperienceSection text).experiences = []) := by
  constructor
  · intro h
    have h1 : educationSectionOf text = "" := by
      unfold educationSectionOf
      rw [h]
      rfl
    unfold exaEducation parseEducationText
    rw [h1]
    have h2 : eduLinesOf "" = [] := rfl
    rw [h2]
    simp [exaFilterEducation, exaSortEducation]
  · intro h
    have h1 : experienceSectionOf text = "" := by
      unfold experienceSectionOf
      rw [h]
      rfl
    unfold parseExperienceSection
    rw [h1]
    have h2 : splitExpBlocks "" = [] := rfl
    rw [h2]
    rfl

/-- Witness for C9: a blob with neither header yields both empty lists. -/
theorem missing_section_empty_lists_witness :
    exaEducation "hello\nworld" = [] ∧
    (parseExperienceSection "hello\nworld").experiences = [] :=
  ⟨(missing_section_empty_lists "hello\nworld").1 (by decide),
   (missing_section_empty_lists "hello\nworld").2 (by decide)⟩

/-- C10: a block contributes an entry only when it has at least two nonempty
lines, its first line matches a title pattern, and some line matches the
date-range pattern; blocks failing any condition are dropped without error. -/
theorem block_contribution_conditions :
    (∀ (block : String) (e : BlockResult), parseBlock block = some e →
      2 ≤ (blockLines block).length ∧
      (∃ first rest, blockLines block = first :: rest ∧ (titleOf first).isSome) ∧
      (∃ l, l ∈ blockLines block ∧ (matchDateLine l).isSome)) ∧
    (∀ block : String, (blockLines block).length < 2 → parseBlock block = none) ∧
    (∀ (block : String) (first : String) (rest : List String),
      blockLines block = first :: rest → titleOf first = none →
      parseBlock block = none) ∧
    (∀ block : String, (∀ l, l ∈ blockLines block → matchDateLine l = none) →
      parseBlock block = none) := by
  refine ⟨?_, ?_, ?_, ?_⟩
  · intro block e hpb
    have hpb' : parseBlockLines (blockLines block) = some e := hpb
    obtain ⟨first, rest, tc, dm, hls, hlen, htc, hfd, hr⟩ := parseBlockLines_some hpb'
    refine ⟨by omega, ⟨first, rest, hls, by simp [htc]⟩, ?_⟩
    unfold findDateMatch at hfd
    cases hf : (blockLines block).find? (fun l => (matchDateLine l).isSome) with
    | none =>
      rw [hf] at hfd
      simp at hfd
    | some l =>
      rw [hf] at hfd
      have hml : matchDateLine l = some dm := hfd
      exact ⟨l, List.mem_of_find?_eq_some hf, by rw [hml]; rfl⟩
  · intro block hlen
    show parseBlockLines (blockLines block) = none
    cases hbl : blockLines block with
    | nil => rfl
    | cons first rest =>
      rw [hbl] at hlen
      simp only [parseBlockLines]
      rw [if_pos hlen]
  · intro block first rest hls htc
    show parseBlockLines (blockLines block) = none
    rw [hls]
    simp only [parseBlockLines]
    by_cases hl : (first :: rest).length < 2
    · rw [if_pos hl]
    · rw [if_neg hl, htc]
  · intro block hall
    have hf : (blockLines block).find? (fun l => (matchDateLine l).isSome) = none :=
      List.find?_eq_none.mpr (fun l hl => by simp [hall l hl])
    show parseBlockLines (blockLines block) = none
    cases hbl : blockLines block with
    | nil => rfl
    | cons first rest =>
      have hfd : findDateMatch (first :: rest) = none := by
        unfold findDateMatch
        rw [← hbl, hf]
      simp only [parseBlockLines]
      by_cases hl : (first :: rest).length < 2
      · rw [if_pos hl]
      · rw [if_neg hl, hfd]
        cases titleOf first <;> rfl

/-- Witness for C10: a two-line block with a title and date line satisfies the
contribution conditions, while a block whose first line matches no title
pattern is dropped. -/
theorem block_contribution_conditions_witness :
    2 ≤ (blockLines "Analyst at Initech\nMar 2019 - Present").length ∧
    parseBlock "Hello world\nJan 2018 - Dec 2020" = none :=
  ⟨(block_contribution_conditions.1 "Analyst at Initech\nMar 2019 - Present"
      ⟨"Initech", "Analyst", "Mar", 2019, none, true⟩ (by decide)).1,
   block_contribution_conditions.2.2.1 "Hello world\nJan 2018 - Dec 2020" "Hello world"
      ["Jan 2018 - Dec 2020"] (by decide) (by decide)⟩

/-- C1 counterexample: a block whose first line carries the `"(Current)"`
marker but whose date line is the completed range `"Jan 2018 - Dec 2020"`
produces an entry with `current = true` and a non-null end year, violating
the invariant as stated. -/
theorem current_marker_completed_range_cex :
    parseBlock "Engineer at Acme (Current)\nJan 2018 - Dec 2020" =
      some ⟨"Acme", "Engineer", "Jan", 2018, some 2020, true⟩ ∧
    (⟨"Acme", "Engineer", "Jan", 2018, some 2020, true⟩ : BlockResult).current = true ∧
    (⟨"Acme", "Engineer", "Jan", 2018, some 2020, true⟩ : BlockResult).endYear ≠ none := by
  refine ⟨by decide, by decide, by decide⟩

/-- C1 amended: the invariant holds unconditionally for the structured-source
mapping; for the free-text parser it holds for every block whose first line
does not contain `"(Current)"` and whose matched end year is not `0`
(JS `!endYear` also treats the year `0` as missing). -/
theorem current_implies_no_end_amended :
    (∀ (ps : List LinkedInPosition) (e : Experience),
      e ∈ (screenExperiences ps).experiences → e.current = true → e.endYear = none) ∧
    (∀ (block : String) (e : BlockResult) (first : String) (rest : List String),
      blockLines block = first :: rest →
      strIncludes first "(Current)" = false →
      e.endYear ≠ some 0 →
      parseBlock block = some e →
      e.current = true → e.endYear = none) := by
  constructor
  · intro ps e hmem hcur
    rw [screenExperiences, foldl_screenExpStep_experiences] at hmem
    simp only [List.nil_append, List.mem_map] at hmem
    obtain ⟨p, hp, he⟩ := hmem
    subst he
    simp only [screenEntryOf] at hcur ⊢
    simp [hcur]
  · intro block e first rest hls hmark hne hpb hcur
    have hpb' : parseBlockLines (blockLines block) = some e := hpb
    obtain ⟨first', rest', tc, dm, hls', hlen, htc, hfd, hr⟩ := parseBlockLines_some hpb'
    have hfst : first' = first := by
      have h0 := hls'.symm.trans hls
      injection h0
    subst hfst
    subst hr
    cases hem : dm.endM with
    | none => simp [mkBlockResult, hem]
    | some p =>
      exfalso
      simp only [mkBlockResult, hem, hmark, Option.isNone_none, Bool.false_or,
        Option.isNone_some, jsFalsyNum] at hcur
      simp only [mkBlockResult, hem] at hne
      exact hne (by simpa using hcur)

/-- Witness for C1 (amended): a structured position with no end date yields
a current entry with no end year, and a marker-free `Present` block yields a
current entry with no end year. -/
theorem current_implies_no_end_amended_witness :
    (⟨some "Acme", some "Dev", some 2020, none, true⟩ : Experience).endYear = none ∧
    (⟨"Initech", "Dev", "Feb", 2020, none, true⟩ : BlockResult).endYear = none :=
  ⟨current_implies_no_end_amended.1
      [⟨some "Acme", some "Dev", some ⟨some ⟨some 2020, none, none⟩, none, none, none⟩,
        none, none⟩]
      ⟨some "Acme", some "Dev", some 2020, none, true⟩ (by decide) (by decide),
   current_implies_no_end_amended.2 "Dev at Initech\nFeb 2020 - Present"
      ⟨"Initech", "Dev", "Feb", 2020, none, true⟩ "Dev at Initech" ["Feb 2020 - Present"]
      (by decide) (by decide) (by decide) (by decide) (by decide)⟩

/-- C3 counterexample: a block containing `"Jan 2018 - Dec 2020"` can still
yield `current = true` (when the first line carries `"(Current)"`), and can
yield a different start/end (when an earlier line matches first), so the
claim fails as stated. -/
theorem jan2018_dec2020_cex :
    parseBlock "Engineer at Initech (Current)\nJan 2018 - Dec 2020" =
      some ⟨"Initech", "Engineer", "Jan", 2018, some 2020, true⟩ ∧
    parseBlock "Dev at Hooli\nJun 2021 - Present\nJan 2018 - Dec 2020" =
      some ⟨"Hooli", "Dev", "Jun", 2021, none, true⟩ := by
  refine ⟨by decide, by decide⟩

/-- C3 amended: for every block whose first line does not contain
`"(Current)"` and whose first matching date line is `"Jan 2018 - Dec 2020"`,
the entry has start year 2018, end year 2020 and `current = false`. -/
theorem jan2018_dec2020_amended :
    ∀ (block : String) (e : BlockResult) (first : String) (rest : List String),
      blockLines block = first :: rest →
      strIncludes first "(Current)" = false →
      parseBlock block = some e →
      findDateMatch (first :: rest) = some ⟨"Jan", 2018, some ("Dec", 2020)⟩ →
      e.startYear = 2018 ∧ e.endYear = some 2020 ∧ e.current = false := by
  intro block e first rest hls hmark hpb hfd
  have hpb' : parseBlockLines (blockLines block) = some e := hpb
  obtain ⟨first', rest', tc, dm, hls', hlen, htc, hfd', hr⟩ := parseBlockLines_some hpb'
  have hfst : first' = first := by
    have h0 := hls'.symm.trans hls
    injection h0
  subst hfst
  rw [hls, hfd] at hfd'
  have hdm : dm = ⟨"Jan", 2018, some ("Dec", 2020)⟩ := by
    injection hfd' with h
    exact h.symm
  subst hdm
  subst hr
  refine ⟨rfl, rfl, ?_⟩
  simp [mkBlockResult, hmark, jsFalsyNum]

/-- Witness for C3 (amended): the marker-free block
`"Engineer at Acme\nJan 2018 - Dec 2020"`. -/
theorem jan2018_dec2020_amended_witness :
    (⟨"Acme", "Engineer", "Jan", 2018, some 2020, false⟩ : BlockResult).startYear = 2018 ∧
    (⟨"Acme", "Engineer", "Jan", 2018, some 2020, false⟩ : BlockResult).endYear = some 2020 ∧
    (⟨"Acme", "Engineer", "Jan", 2018, some 2020, false⟩ : BlockResult).current = false :=
  jan2018_dec2020_amended "Engineer at Acme\nJan 2018 - Dec 2020"
    ⟨"Acme", "Engineer", "Jan", 2018, some 2020, false⟩ "Engineer at Acme"
    ["Jan 2018 - Dec 2020"] (by decide) (by decide) (by decide) (by decide)

/-- C5 counterexample: in
`"## Experience"` with a first current block whose company trims to `""`
followed by a second current block at `"Acme"`, the designated current
company is the second block's company, so a subsequent current-flagged entry
does override the first one. -/
theorem first_current_company_cex :
    (parseExperienceSection
        "## Experience\n### Engineer at [ ]\nJun 2021 - Present\n### Dev at Acme\nJul 2022 - Present").currentCompany =
      some "Acme" ∧
    (parseExperienceSection
        "## Experience\n### Engineer at [ ]\nJun 2021 - Present\n### Dev at Acme\nJul 2022 - Present").experiences.head? =
      some ⟨some "", some "Engineer", some 2021, none, true⟩ ∧
    some "" ≠ some "Acme" := by
  refine ⟨by decide, by decide, by decide⟩

/-- C5 amended: in both server loops the designation (current company plus
position start) ends as `designatedFrom` of the loop's steps: the first
current entry with a truthy (non-null, nonempty) company name wins and
supplies `position_start`; a current entry with a falsy company name holds
the designation and `position_start` only until the next current entry.  In
the CLI variant the first entry with no end date is the current one
unconditionally. -/
theorem designated_current_company_amended :
    (∀ text : String,
      ((parseExperienceSection text).currentCompany,
       (parseExperienceSection text).currentPositionStart) =
        (designatedFrom (exaSteps text)).getD (none, none)) ∧
    (∀ positions : List LinkedInPosition,
      ((screenExperiences positions).currentCompany,
       (screenExperiences positions).currentPositionStart) =
        (designatedFrom (screenSteps positions)).getD (none, none)) ∧
    (∀ (l1 l2 : List CliExperience) (e : CliExperience),
      (∀ x, x ∈ l1 → cliIsCurrent x = false) → cliIsCurrent e = true →
      cliCurrentExperience (l1 ++ e :: l2) = some e) := by
  refine ⟨?_, ?_, ?_⟩
  · intro text
    unfold parseExperienceSection exaSteps exaBlockResults
    rw [foldl_stepBlock_ccps]
    exact jsDesignate_falsy _ _ rfl
  · intro positions
    unfold screenExperiences screenSteps
    rw [foldl_screenExpStep_ccps]
    exact jsDesignate_falsy _ _ rfl
  · intro l1 l2 e h1 he
    unfold cliCurrentExperience
    rw [List.find?_append]
    have hn : l1.find? cliIsCurrent = none :=
      List.find?_eq_none.mpr (by
        intro x hx
        simp [h1 x hx])
    rw [hn]
    simp [he]

/-- C8: the education ranking stable-sorts by descending rank (entries of
equal rank keep their input order), is idempotent, and on
`[PhD, BA, MBA]` produces `[PhD, MBA, BA]`. -/
theorem education_rank_sort_spec :
    (∀ l : List Education, sortEducation (sortEducation l) = sortEducation l) ∧
    (∀ l : List Education, (sortEducation l).Pairwise
      (fun a b => getEducationRank b ≤ getEducationRank a)) ∧
    (∀ (l : List Education) (a b : Education), getEducationRank a = getEducationRank b →
      List.Sublist [a, b] l → List.Sublist [a, b] (sortEducation l)) ∧
    sortEducation
        [⟨some "A U", some "PhD", none, none, none⟩,
         ⟨some "B U", some "BA", none, none, none⟩,
         ⟨some "C U", some "MBA", none, none, none⟩] =
      [⟨some "A U", some "PhD", none, none, none⟩,
       ⟨some "C U", some "MBA", none, none, none⟩,
       ⟨some "B U", some "BA", none, none, none⟩] := by
  have htrans : ∀ a b c : Education,
      decide (getEducationRank b ≤ getEducationRank a) = true →
      decide (getEducationRank c ≤ getEducationRank b) = true →
      decide (getEducationRank c ≤ getEducationRank a) = true := by
    intro a b c hab hbc
    simp only [decide_eq_true_eq] at hab hbc ⊢
    omega
  have htotal : ∀ a b : Education,
      (decide (getEducationRank b ≤ getEducationRank a) ||
       decide (getEducationRank a ≤ getEducationRank b)) = true := by
    intro a b
    simp only [Bool.or_eq_true, decide_eq_true_eq]
    omega
  refine ⟨?_, ?_, ?_, ?_⟩
  · intro l
    unfold sortEducation
    exact List.mergeSort_of_sorted (List.sorted_mergeSort htrans htotal l)
  · intro l
    unfold sortEducation
    exact (List.sorted_mergeSort htrans htotal l).imp (by
      intro a b h
      simpa using h)
  · intro l a b hr hsub
    unfold sortEducation
    exact List.pair_sublist_mergeSort htrans htotal (by simp [hr]) hsub
  · have h1 : getEducationRank ⟨some "A U", some "PhD", none, none, none⟩ = 5 := by decide
    have h2 : getEducationRank ⟨some "B U", some "BA", none, none, none⟩ = 3 := by decide
    have h3 : getEducationRank ⟨some "C U", some "MBA", none, none, none⟩ = 4 := by decide
    simp [sortEducation, List.mergeSort, List.merge, h1, h2, h3]

/-- Witness for C8: two rank-equal entries below a doctorate stay in their
input order after sorting. -/
theorem education_rank_sort_spec_witness :
    List.Sublist
      [(⟨some "U1", some "History", none, none, none⟩ : Education),
       ⟨some "U2", some "Physics", none, none, none⟩]
      (sortEducation
        [⟨some "U0", some "PhD", none, none, none⟩,
         ⟨some "U1", some "History", none, none, none⟩,
         ⟨some "U2", some "Physics", none, none, none⟩]) :=
  education_rank_sort_spec.2.2.1
    [⟨some "U0", some "PhD", none, none, none⟩,
     ⟨some "U1", some "History", none, none, none⟩,
     ⟨some "U2", some "Physics", none, none, none⟩]
    ⟨some "U1", some "History", none, none, none⟩
    ⟨some "U2", some "Physics", none, none, none⟩
    (by decide)
    (List.Sublist.cons _ (List.Sublist.cons₂ _ (List.Sublist.cons₂ _ List.Sublist.slnil)))

/-- Witness for C5 (amended): the CLI pick returns the first entry with no
end date even when a later entry also has none. -/
theorem designated_current_company_amended_witness :
    cliCurrentExperience
      [⟨some "OldCo", some "Intern",
        some ⟨some ⟨some 2018, none, none⟩, some ⟨some 2019, none, none⟩⟩⟩,
       ⟨some "Acme", some "Dev", some ⟨some ⟨some 2020, none, none⟩, none⟩⟩,
       ⟨some "Beta", some "Eng", none⟩] =
      some ⟨some "Acme", some "Dev", some ⟨some ⟨some 2020, none, none⟩, none⟩⟩ :=
  designated_current_company_amended.2.2
    [⟨some "OldCo", some "Intern",
      some ⟨some ⟨some 2018, none, none⟩, some ⟨some 2019, none, none⟩⟩⟩]
    [⟨some "Beta", some "Eng", none⟩]
    ⟨some "Acme", some "Dev", some ⟨some ⟨some 2020, none, none⟩, none⟩⟩
    (by decide) (by decide)
